import Mathlib

/-!
Shallow embedding of the validated form processor in `src/src/App.tsx`:
the zod schema `createUserSchema` (name, email, password, techs), the
password-strength regular expression, and the tech-row array operations.
JavaScript strings are modelled as Lean `String`s (lists of characters);
`.length` counts characters.
-/

namespace FormApp

/-- Field-level validation error kinds, naming the zod checks of
`createUserSchema`: `nonempty` (EmptyField), `.email()` (InvalidFormat),
`.min(6)` on a string (TooShort), `.min(1)` on an array (EmptyList). -/
inductive ErrKind where
  | emptyField
  | invalidFormat
  | tooShort
  | emptyList
deriving DecidableEq, Repr

/-- Whitespace as JavaScript's `String.prototype.trim` removes it
(ASCII whitespace, NBSP, line/paragraph separators, BOM). -/
def isJsSpace (c : Char) : Bool :=
  c = ' ' || c = '\t' || c = '\n' || c = '\r' || c = '\x0b' || c = '\x0c' ||
    c = '\u00A0' || c = '\u2028' || c = '\u2029' || c = '\uFEFF'

/-- JavaScript line terminators: the characters the regexp `.` does not match. -/
def isLineTerm (c : Char) : Bool :=
  c = '\n' || c = '\r' || c = '\u2028' || c = '\u2029'

/-- JavaScript `String.prototype.trim`: strip leading and trailing whitespace. -/
def jsTrim (cs : List Char) : List Char :=
  ((cs.dropWhile isJsSpace).reverse.dropWhile isJsSpace).reverse

/-- JavaScript `String.prototype.split` with a one-character separator:
`"".split(sep)` is `[""]`, separators at the ends produce empty pieces. -/
def splitOnChar (sep : Char) : List Char → List (List Char)
  | [] => [[]]
  | c :: cs =>
    if c = sep then [] :: splitOnChar sep cs
    else
      match splitOnChar sep cs with
      | [] => [[c]]
      | w :: ws => (c :: w) :: ws

/-- JavaScript `Array.prototype.join(" ")`. -/
def joinSpace : List (List Char) → List Char
  | [] => []
  | [w] => w
  | w :: w' :: ws => w ++ ' ' :: joinSpace (w' :: ws)

/-- One word of the name transform:
`word[0].toLocaleUpperCase().concat(word.substring(1))`.
On the empty word `word[0]` is `undefined` and the method call throws a
TypeError; `none` models the throw. -/
def capWord : List Char → Option (List Char)
  | [] => none
  | c :: cs => some (c.toUpper :: cs)

/-- Run `capWord` over all the words, propagating the throw. -/
def capWords : List (List Char) → Option (List (List Char))
  | [] => some []
  | w :: ws =>
    match capWord w, capWords ws with
    | some w', some ws' => some (w' :: ws')
    | _, _ => none

/-- Total companion of `capWord`, used to state what `capWords` returns when
no word is empty. -/
def capWordD : List Char → List Char
  | [] => []
  | c :: cs => c.toUpper :: cs

/-- The name transform of `createUserSchema.name`:
`name.toLocaleLowerCase().trim().split(" ").map(word =>
word[0].toLocaleUpperCase().concat(word.substring(1))).join(" ")`.
`none` models the TypeError thrown on an empty word. -/
def transformName (name : String) : Option String :=
  (capWords (splitOnChar ' ' (jsTrim (name.data.map Char.toLower)))).map
    fun ws => ⟨joinSpace ws⟩

/-- JavaScript `String.prototype.toLowerCase` (zod's `.toLowerCase()`). -/
def jsLower (s : String) : String :=
  ⟨s.data.map Char.toLower⟩

/-- Modelled from the spec: the email syntax check is zod's `.email()`
validator, library code that is not under `src/`. The spec asks for "a
syntactically valid email address": one `@` separating a nonempty,
whitespace-free local part from a domain of at least two nonempty,
whitespace-free dot-separated labels. -/
def isValidEmail (email : String) : Bool :=
  match splitOnChar '@' email.data with
  | [l, d] =>
    !l.isEmpty && l.all (fun c => !isJsSpace c) &&
      (let labels := splitOnChar '.' d
       decide (2 ≤ labels.length) &&
         labels.all fun lab => !lab.isEmpty && lab.all fun c => !isJsSpace c)
  | _ => false

/-- A technology row: `{ title: string }`. -/
structure TechEntry where
  title : String
deriving DecidableEq, Repr

/-- The raw form input handed to the resolver on submit. -/
structure RawInput where
  name : String
  email : String
  password : String
  techs : List TechEntry
deriving DecidableEq, Repr

/-- The normalized record produced when `createUserSchema` parses successfully. -/
structure UserRecord where
  name : String
  email : String
  password : String
  techs : List TechEntry
deriving DecidableEq, Repr

/-- First error reported for the name field: zod `nonempty` = `min(1)`,
i.e. the check fails exactly on the empty string. -/
def nameError (name : String) : Option ErrKind :=
  if name.data.isEmpty then some .emptyField else none

/-- First error reported for the email field: `nonempty`, then `.email()`. -/
def emailError (email : String) : Option ErrKind :=
  if email.data.isEmpty then some .emptyField
  else if isValidEmail email then none
  else some .invalidFormat

/-- First error reported for the password field: `nonempty`, then `.min(6)`
(JavaScript length, i.e. the number of characters). -/
def passwordError (password : String) : Option ErrKind :=
  if password.data.isEmpty then some .emptyField
  else if password.data.length < 6 then some .tooShort
  else none

/-- Error at the array path `techs`: `.min(1)`. -/
def techsListError (techs : List TechEntry) : Option ErrKind :=
  if techs.length < 1 then some .emptyList else none

/-- Per-element errors at paths `techs.i.title`: `nonempty` on each title. -/
def techTitleErrors (techs : List TechEntry) : List (Nat × ErrKind) :=
  (List.range techs.length).filterMap fun i =>
    if ((techs.getD i { title := "" }).title).data.isEmpty then
      some (i, ErrKind.emptyField)
    else none

/-- The mapping from field path to (first) error that the zod resolver hands
to the form, one slot per schema path. -/
structure FieldErrors where
  name : Option ErrKind
  email : Option ErrKind
  password : Option ErrKind
  techsList : Option ErrKind
  techTitle : List (Nat × ErrKind)
deriving DecidableEq, Repr

/-- All field errors of an input. -/
def fieldErrors (input : RawInput) : FieldErrors :=
  { name := nameError input.name,
    email := emailError input.email,
    password := passwordError input.password,
    techsList := techsListError input.techs,
    techTitle := techTitleErrors input.techs }

/-- No error recorded at any path. -/
def FieldErrors.clean (e : FieldErrors) : Bool :=
  e.name.isNone && e.email.isNone && e.password.isNone &&
    e.techsList.isNone && e.techTitle.isEmpty

/-- Outcome of running `createUserSchema` on the raw input: the normalized
record, the field-error mapping, or an uncaught TypeError thrown inside the
name transform (`crash`). -/
inductive VResult where
  | ok (record : UserRecord)
  | errs (errors : FieldErrors)
  | crash
deriving DecidableEq, Repr

/-- The name transform throws: the name passes its `nonempty` check but
lowercasing, trimming and splitting on spaces yields an empty word. -/
def crashes (input : RawInput) : Bool :=
  !input.name.data.isEmpty && (transformName input.name).isNone

/-- Parse the raw input with `createUserSchema` (the resolver run on submit,
called `validate` in the spec). The name field is
parsed first; if its `nonempty` check passes, its transform runs and a thrown
TypeError aborts the whole parse. Otherwise errors are collected per path and
success yields the normalized record. -/
def validate (input : RawInput) : VResult :=
  if crashes input then .crash
  else if (fieldErrors input).clean then
    .ok { name := (transformName input.name).getD "",
          email := jsLower input.email,
          password := input.password,
          techs := input.techs }
  else .errs (fieldErrors input)

/-- The five lookaheads of the strength regexp
`(?=.*[a-z])(?=.*[A-Z])(?=.*[0-9])(?=.*[^A-Za-z0-9])(?=.{8,})`, evaluated at
one scan position: `.` does not match line terminators, so `.*` and `.{8,}`
stay inside the current line, while the negated class `[^A-Za-z0-9]` can also
match the line terminator itself. -/
def strongAt (cs : List Char) : Bool :=
  let fl := cs.takeWhile fun c => !isLineTerm c
  fl.any Char.isLower && fl.any Char.isUpper && fl.any Char.isDigit &&
    (fl.any (fun c => !c.isAlphanum) || decide (fl.length < cs.length)) &&
    decide (8 ≤ fl.length)

/-- The `isPasswordStrong` computation: `RegExp.prototype.test` tries every scan position. -/
def isPasswordStrong (password : String) : Bool :=
  (List.range (password.data.length + 1)).any fun i =>
    strongAt (password.data.drop i)

/-- Title-case one word as the spec words it: first character uppercased,
remainder lowercased. -/
def specCapWord : List Char → List Char
  | [] => []
  | c :: cs => c.toUpper :: cs.map Char.toLower

/-- Title case in the spec's words, with the delimiter the code actually
uses: trim, split on the space character, uppercase each word's first
character and lowercase the remainder, join with single spaces. -/
def spaceTitleCase (s : String) : String :=
  ⟨joinSpace ((splitOnChar ' ' (jsTrim s.data)).map specCapWord)⟩

/-- Modelled from the spec: `remove(index)` of the form library is not under
`src/`; the spec says "removeTechRow(index): mutate the ordered sequence of
TechEntry ...; index must be within current bounds or the operation is a
no-op". -/
def removeTechRow (techs : List TechEntry) (i : Int) : List TechEntry :=
  if 0 ≤ i ∧ i < techs.length then techs.take i.toNat ++ techs.drop (i.toNat + 1)
  else techs

/-- The `addNewTech` handler from src appends `{ title: "" }`; the append-at-end
sequencing of the form library's `append` is modelled from the spec
("addTechRow(): mutate the ordered sequence of TechEntry"). -/
def addTechRow (s : RawInput) : RawInput :=
  { s with techs := s.techs ++ [{ title := "" }] }


theorem toLower_eq_self (c : Char) (h : ¬(c.toNat ≥ 65 ∧ c.toNat ≤ 90)) :
    Char.toLower c = c := by
  simp only [Char.toLower]
  exact if_neg h

theorem toUpper_toLower (c : Char) : (Char.toLower c).toUpper = c.toUpper := by
  by_cases h : c.toNat ≥ 65 ∧ c.toNat ≤ 90
  · rcases h with ⟨h1, h2⟩
    have hc := (Char.ofNat_toNat c).symm
    generalize hgen : c.toNat = n at h1 h2 hc
    subst hc
    interval_cases n <;> decide
  · rw [toLower_eq_self c h]

theorem isJsSpace_toLower (c : Char) : isJsSpace (Char.toLower c) = isJsSpace c := by
  by_cases h : c.toNat ≥ 65 ∧ c.toNat ≤ 90
  · rcases h with ⟨h1, h2⟩
    have hc := (Char.ofNat_toNat c).symm
    generalize hgen : c.toNat = n at h1 h2 hc
    subst hc
    interval_cases n <;> decide
  · rw [toLower_eq_self c h]

theorem toLower_eq_space_iff (c : Char) : Char.toLower c = ' ' ↔ c = ' ' := by
  by_cases h : c.toNat ≥ 65 ∧ c.toNat ≤ 90
  · rcases h with ⟨h1, h2⟩
    have hc := (Char.ofNat_toNat c).symm
    generalize hgen : c.toNat = n at h1 h2 hc
    subst hc
    interval_cases n <;> decide
  · rw [toLower_eq_self c h]

theorem splitOnChar_ne_nil (sep : Char) (cs : List Char) : splitOnChar sep cs ≠ [] := by
  induction cs with
  | nil => simp [splitOnChar]
  | cons c cs ih =>
    rw [splitOnChar]
    by_cases h : c = sep
    · simp [h]
    · rw [if_neg h]
      split <;> simp

theorem splitOnChar_map_toLower (cs : List Char) :
    splitOnChar ' ' (cs.map Char.toLower) =
      (splitOnChar ' ' cs).map (List.map Char.toLower) := by
  induction cs with
  | nil => rfl
  | cons c cs ih =>
    rw [List.map_cons, splitOnChar, splitOnChar]
    by_cases h : c = ' '
    · rw [if_pos ((toLower_eq_space_iff c).mpr h), if_pos h, List.map_cons, ih]
      rfl
    · rw [if_neg (fun hh => h ((toLower_eq_space_iff c).mp hh)), if_neg h, ih]
      have hne := splitOnChar_ne_nil ' ' cs
      cases hsp : splitOnChar ' ' cs with
      | nil => exact absurd hsp hne
      | cons w ws => simp

theorem jsTrim_map_toLower (cs : List Char) :
    jsTrim (cs.map Char.toLower) = (jsTrim cs).map Char.toLower := by
  have hfun : (isJsSpace ∘ Char.toLower) = isJsSpace := funext isJsSpace_toLower
  unfold jsTrim
  rw [List.dropWhile_map, hfun, ← List.map_reverse, List.dropWhile_map, hfun,
    ← List.map_reverse]

theorem capWords_eq_some : ∀ {ws out : List (List Char)}, capWords ws = some out →
    out = ws.map capWordD ∧ ∀ w ∈ ws, w ≠ [] := by
  intro ws
  induction ws with
  | nil =>
    intro out h
    simp [capWords] at h
    subst h
    simp
  | cons w ws ih =>
    intro out h
    cases w with
    | nil => simp [capWords, capWord] at h
    | cons c cs =>
      cases hws : capWords ws with
      | none => rw [capWords, hws] at h; simp [capWord] at h
      | some ws' =>
        rw [capWords, hws] at h
        simp [capWord] at h
        obtain ⟨h1, h2⟩ := ih hws
        subst h1
        simp [← h, capWordD]
        exact h2

theorem capWords_of_ne_nil : ∀ {ws : List (List Char)}, (∀ w ∈ ws, w ≠ []) →
    capWords ws = some (ws.map capWordD) := by
  intro ws
  induction ws with
  | nil => intro _; rfl
  | cons w ws ih =>
    intro h
    cases hw : w with
    | nil => exact absurd hw (h w (by simp))
    | cons c cs =>
      rw [capWords, ih (fun w hw => h w (by simp [hw]))]
      simp [capWord, capWordD]

theorem joinSpace_cons_ne_nil {w : List Char} (hw : w ≠ []) (ws : List (List Char)) :
    joinSpace (w :: ws) ≠ [] := by
  cases ws with
  | nil => simpa [joinSpace] using hw
  | cons w2 ws => simp [joinSpace]

theorem capWordD_map_toLower (w : List Char) :
    capWordD (w.map Char.toLower) = specCapWord w := by
  cases w with
  | nil => rfl
  | cons c cs => simp [capWordD, specCapWord, toUpper_toLower]

theorem transformName_eq_titlecase {name t : String}
    (h : transformName name = some t) : t = spaceTitleCase name := by
  unfold transformName at h
  cases hcw : capWords (splitOnChar ' ' (jsTrim (name.data.map Char.toLower))) with
  | none => rw [hcw] at h; simp at h
  | some out =>
    rw [hcw] at h
    simp at h
    obtain ⟨h1, _⟩ := capWords_eq_some hcw
    subst h1
    rw [← h]
    unfold spaceTitleCase
    rw [jsTrim_map_toLower, splitOnChar_map_toLower, List.map_map]
    congr 1
    exact congrArg joinSpace (List.map_congr_left fun w _ => capWordD_map_toLower w)


theorem string_empty_iff (s : String) : s = "" ↔ s.data = [] :=
  String.ext_iff

theorem clean_iff (e : FieldErrors) :
    e.clean = true ↔ e.name = none ∧ e.email = none ∧ e.password = none ∧
      e.techsList = none ∧ e.techTitle = [] := by
  simp [FieldErrors.clean, Option.isNone_iff_eq_none, List.isEmpty_iff, and_assoc]

theorem nameError_none_iff (s : String) : nameError s = none ↔ s ≠ "" := by
  constructor
  · intro h hs
    subst hs
    exact absurd h (by decide)
  · intro h
    unfold nameError
    rw [if_neg]
    intro hemp
    exact h (string_empty_iff s |>.mpr (List.isEmpty_iff.mp hemp))

theorem passwordError_none_iff (s : String) :
    passwordError s = none ↔ 6 ≤ s.data.length := by
  unfold passwordError
  by_cases h : s.data.isEmpty = true
  · rw [if_pos h]
    have : s.data.length = 0 := by simp [List.isEmpty_iff.mp h]
    simp [this]
  · rw [if_neg h]
    by_cases h6 : s.data.length < 6
    · rw [if_pos h6]
      constructor
      · intro hc
        cases hc
      · intro hc
        omega
    · rw [if_neg h6]
      constructor
      · intro _
        omega
      · intro _
        rfl

theorem emailError_none_iff (s : String) :
    emailError s = none ↔ s.data ≠ [] ∧ isValidEmail s = true := by
  unfold emailError
  by_cases h : s.data.isEmpty = true
  · rw [if_pos h]
    simp [List.isEmpty_iff.mp h]
  · rw [if_neg h]
    simp [List.isEmpty_iff] at h
    by_cases hv : isValidEmail s = true
    · rw [if_pos hv]
      simp [h, hv]
    · rw [if_neg hv]
      simp [h, hv]

theorem techsListError_none_iff (techs : List TechEntry) :
    techsListError techs = none ↔ 1 ≤ techs.length := by
  unfold techsListError
  by_cases h : techs.length < 1
  · rw [if_pos h]
    constructor
    · intro hc
      cases hc
    · intro hc
      omega
  · rw [if_neg h]
    constructor
    · intro _
      omega
    · intro _
      rfl

theorem getD_title_empty_iff (techs : List TechEntry) (j : Nat) (hj : j < techs.length) :
    ((techs.getD j { title := "" }).title).data.isEmpty = true ↔
      (techs.get ⟨j, hj⟩).title = "" := by
  rw [string_empty_iff, ← List.isEmpty_iff]
  simp [List.getD_eq_getElem?_getD, List.getElem?_eq_getElem hj, List.get_eq_getElem]

theorem mem_techTitleErrors_iff (techs : List TechEntry) (i : Nat) (k : ErrKind) :
    (i, k) ∈ techTitleErrors techs ↔
      k = .emptyField ∧ ∃ h : i < techs.length, (techs.get ⟨i, h⟩).title = "" := by
  unfold techTitleErrors
  rw [List.mem_filterMap]
  constructor
  · rintro ⟨j, hj, hf⟩
    rw [List.mem_range] at hj
    by_cases hemp : ((techs.getD j { title := "" }).title).data.isEmpty = true
    · rw [if_pos hemp] at hf
      injection hf with hf
      obtain ⟨rfl, rfl⟩ : j = i ∧ ErrKind.emptyField = k := Prod.mk.injEq .. ▸ hf
      exact ⟨rfl, hj, (getD_title_empty_iff techs j hj).mp hemp⟩
    · rw [if_neg hemp] at hf
      cases hf
  · rintro ⟨rfl, hi, hempty⟩
    exact ⟨i, List.mem_range.mpr hi,
      by rw [if_pos ((getD_title_empty_iff techs i hi).mpr hempty)]⟩

theorem techTitleErrors_eq_nil_iff (techs : List TechEntry) :
    techTitleErrors techs = [] ↔ ∀ e ∈ techs, e.title ≠ "" := by
  unfold techTitleErrors
  rw [List.filterMap_eq_nil_iff]
  constructor
  · intro h e he
    obtain ⟨j, hj, rfl⟩ := List.mem_iff_getElem.mp he
    have hh := h j (List.mem_range.mpr hj)
    intro hc
    rw [if_pos ((getD_title_empty_iff techs j hj).mpr
      (by rw [List.get_eq_getElem]; exact hc))] at hh
    cases hh
  · intro h j hj
    rw [List.mem_range] at hj
    rw [if_neg ?_]
    intro hemp
    exact h _ (List.get_mem techs j hj) ((getD_title_empty_iff techs j hj).mp hemp)

theorem validate_ok_iff (input : RawInput) (r : UserRecord) :
    validate input = .ok r ↔
      crashes input = false ∧ (fieldErrors input).clean = true ∧
        r = { name := (transformName input.name).getD "",
              email := jsLower input.email,
              password := input.password,
              techs := input.techs } := by
  unfold validate
  by_cases h1 : crashes input = true
  · simp [h1]
  · rw [Bool.not_eq_true] at h1
    by_cases h2 : (fieldErrors input).clean = true <;>
      simp [h1, h2, eq_comm]

theorem validate_errs_iff (input : RawInput) (e : FieldErrors) :
    validate input = .errs e ↔
      crashes input = false ∧ (fieldErrors input).clean = false ∧
        e = fieldErrors input := by
  unfold validate
  by_cases h1 : crashes input = true
  · simp [h1]
  · rw [Bool.not_eq_true] at h1
    by_cases h2 : (fieldErrors input).clean = true
    · simp [h1, h2]
    · rw [Bool.not_eq_true] at h2
      simp [h1, h2, eq_comm]

theorem crashes_eq_false_of_some {input : RawInput} {t : String}
    (h : transformName input.name = some t) : crashes input = false := by
  simp [crashes, h]

theorem transformName_isSome (input : RawInput) (hc : crashes input = false)
    (hn : input.name ≠ "") : ∃ t, transformName input.name = some t := by
  cases htr : transformName input.name with
  | some t => exact ⟨t, rfl⟩
  | none =>
    rw [crashes, htr] at hc
    simp [List.isEmpty_iff] at hc
    exact absurd (string_empty_iff input.name |>.mpr hc) hn


/-- C1 (counterexample): this input has a non-empty name, a syntactically
valid email, a password of more than 6 characters, and one tech entry with a
non-empty title, yet `validate` does not return success: the whitespace name
" " makes the name transform throw. -/
theorem validate_valid_claim_cex :
    (" " : String) ≠ "" ∧ isValidEmail "JOHN@EXAMPLE.COM" = true ∧
      6 ≤ ("secret1" : String).data.length ∧
      ([TechEntry.mk "Go"] : List TechEntry) ≠ [] ∧
      (∀ e ∈ [TechEntry.mk "Go"], e.title ≠ "") ∧
      validate ⟨" ", "JOHN@EXAMPLE.COM", "secret1", [⟨"Go"⟩]⟩ = .crash := by
  decide

/-- C1 (amended): for every input whose name is non-empty and whose name
normalization does not throw, whose email is syntactically valid, whose
password has at least 6 characters, and whose techs list is non-empty with
every title non-empty, `validate` succeeds, and the returned record carries
the title-cased name, the lowercased email, and the unchanged password and
techs. -/
theorem validate_valid_input_ok (input : RawInput) (t : String)
    (hname : transformName input.name = some t)
    (hemail : isValidEmail input.email = true)
    (hpw : 6 ≤ input.password.data.length)
    (htechs : input.techs ≠ [])
    (htitles : ∀ e ∈ input.techs, e.title ≠ "") :
    validate input = .ok { name := t, email := jsLower input.email,
                           password := input.password, techs := input.techs } := by
  rw [validate_ok_iff]
  have hne : input.name ≠ "" := by
    intro h0
    have h1 : transformName ("" : String) = none := by decide
    rw [h0, h1] at hname
    simp at hname
  refine ⟨crashes_eq_false_of_some hname, ?_, ?_⟩
  · rw [clean_iff]
    simp only [fieldErrors]
    refine ⟨(nameError_none_iff _).mpr hne,
      (emailError_none_iff _).mpr ⟨?_, hemail⟩,
      (passwordError_none_iff _).mpr hpw,
      (techsListError_none_iff _).mpr ?_,
      (techTitleErrors_eq_nil_iff _).mpr htitles⟩
    · intro hdata
      have he : input.email = "" := (string_empty_iff _).mpr hdata
      rw [he] at hemail
      exact absurd hemail (by decide)
    · cases htl : input.techs with
      | nil => exact absurd htl htechs
      | cons a l => simp
  · rw [hname]
    rfl

/-- C1 (witness): the spec example. -/
theorem validate_valid_input_ok_witness :
    validate ⟨"john doe", "JOHN@EXAMPLE.COM", "secret1", [⟨"Go"⟩]⟩ =
      .ok ⟨"John Doe", "john@example.com", "secret1", [⟨"Go"⟩]⟩ := by
  rw [validate_valid_input_ok ⟨"john doe", "JOHN@EXAMPLE.COM", "secret1", [⟨"Go"⟩]⟩
    "John Doe" (by decide) (by decide) (by decide) (by decide) (by decide)]
  decide

/-- C2: `validate` is not total. On the whitespace-only name " " the
`nonempty` check passes (length 1), trimming yields the empty string, the
split produces one empty word, and `word[0].toLocaleUpperCase()` is
`undefined.toLocaleUpperCase()`: an uncaught TypeError. -/
theorem validate_crashes_on_whitespace_name :
    validate ⟨" ", "john@example.com", "secret1", [⟨"Go"⟩]⟩ = .crash := by
  decide

/-- C3 (counterexample): "a  b" (two spaces) is not blank, yet `validate`
produces no normalized name at all: the empty word between the two spaces
makes the transform throw. -/
theorem name_titlecase_cex :
    ("a  b" : String) ≠ "" ∧ jsTrim ("a  b" : String).data ≠ [] ∧
      validate ⟨"a  b", "john@example.com", "secret1", [⟨"Go"⟩]⟩ = .crash := by
  decide

/-- C3 (amended): whenever `validate` succeeds, the normalized name is the
title-cased input name, where the words are delimited by the space character
(not arbitrary whitespace): trim, split on " ", uppercase each word's first
character, lowercase the remainder, join with " ". -/
theorem validate_ok_name_titlecase (input : RawInput) (r : UserRecord)
    (h : validate input = .ok r) : r.name = spaceTitleCase input.name := by
  obtain ⟨hc, hclean, hr⟩ := (validate_ok_iff input r).mp h
  have hne : input.name ≠ "" :=
    (nameError_none_iff _).mp ((clean_iff _).mp hclean).1
  obtain ⟨t, ht⟩ := transformName_isSome input hc hne
  rw [hr]
  simp only [ht, Option.getD_some]
  exact transformName_eq_titlecase ht

/-- C3 (witness): the example name. -/
theorem validate_ok_name_titlecase_witness :
    spaceTitleCase "john doe" = "John Doe" := by
  have h := validate_ok_name_titlecase
    ⟨"john doe", "JOHN@EXAMPLE.COM", "secret1", [⟨"Go"⟩]⟩
    ⟨"John Doe", "john@example.com", "secret1", [⟨"Go"⟩]⟩ (by decide)
  exact h.symm


/-- C4 (counterexample): "Abcd1!\nAbcd1!" contains a lowercase letter, an
uppercase letter, a digit, a non-alphanumeric character, and has 13
characters, yet `isPasswordStrong` is false: the regexp dot does not cross
the newline, and neither 6-character line reaches the required 8. -/
theorem isPasswordStrong_cex :
    isPasswordStrong "Abcd1!\nAbcd1!" = false ∧
      (("Abcd1!\nAbcd1!" : String).data.any Char.isLower &&
       ("Abcd1!\nAbcd1!" : String).data.any Char.isUpper &&
       ("Abcd1!\nAbcd1!" : String).data.any Char.isDigit &&
       ("Abcd1!\nAbcd1!" : String).data.any (fun c => !c.isAlphanum) &&
       decide (8 ≤ ("Abcd1!\nAbcd1!" : String).data.length)) = true := by
  decide

/-- C4 (amended): for every password free of line terminators,
`isPasswordStrong` is true iff the password contains a lowercase letter, an
uppercase letter, a digit, and a non-alphanumeric character, and has at
least 8 characters. (With line terminators the regexp evaluates its
lookaheads line by line.) -/
theorem isPasswordStrong_iff_no_linebreak (password : String)
    (h : ∀ c ∈ password.data, isLineTerm c = false) :
    isPasswordStrong password =
      (password.data.any Char.isLower && password.data.any Char.isUpper &&
       password.data.any Char.isDigit &&
       password.data.any (fun c => !c.isAlphanum) &&
       decide (8 ≤ password.data.length)) := by
  have hfl : ∀ i, (password.data.drop i).takeWhile (fun c => !isLineTerm c) =
      password.data.drop i := by
    intro i
    rw [List.takeWhile_eq_self_iff]
    intro c hcmem
    simp [h c (List.drop_subset i password.data hcmem)]
  rw [Bool.eq_iff_iff]
  unfold isPasswordStrong strongAt
  simp only [hfl]
  constructor
  · intro hl
    obtain ⟨i, _, hstrong⟩ := List.any_eq_true.mp hl
    simp only [Bool.and_eq_true, Bool.or_eq_true, decide_eq_true_eq] at hstrong
    obtain ⟨⟨⟨⟨hlow, hup⟩, hdig⟩, hspec⟩, hlen⟩ := hstrong
    have hsub : ∀ {p : Char → Bool}, (password.data.drop i).any p = true →
        password.data.any p = true := by
      intro p hp
      obtain ⟨x, hx, hpx⟩ := List.any_eq_true.mp hp
      exact List.any_eq_true.mpr ⟨x, List.drop_subset i password.data hx, hpx⟩
    have hlen2 : 8 ≤ password.data.length := by
      rw [List.length_drop] at hlen
      omega
    have hspec2 : (password.data.drop i).any (fun c => !c.isAlphanum) = true := by
      rcases hspec with hs | hs
      · exact hs
      · omega
    simp only [Bool.and_eq_true, decide_eq_true_eq]
    exact ⟨⟨⟨⟨hsub hlow, hsub hup⟩, hsub hdig⟩, hsub hspec2⟩, hlen2⟩
  · intro hr
    simp only [Bool.and_eq_true, decide_eq_true_eq] at hr
    obtain ⟨⟨⟨⟨hlow, hup⟩, hdig⟩, hspec⟩, hlen⟩ := hr
    apply List.any_eq_true.mpr
    refine ⟨0, List.mem_range.mpr (by omega), ?_⟩
    simp only [List.drop_zero, Bool.and_eq_true, Bool.or_eq_true, decide_eq_true_eq]
    exact ⟨⟨⟨⟨hlow, hup⟩, hdig⟩, Or.inl hspec⟩, hlen⟩

/-- C4 (witness): the spec's two examples. -/
theorem isPasswordStrong_iff_witness :
    isPasswordStrong "Abcdef1!" = true ∧ isPasswordStrong "abcdef" = false := by
  constructor
  · rw [isPasswordStrong_iff_no_linebreak "Abcdef1!" (by decide)]
    decide
  · decide


/-- C5 (counterexample): the name "\t" is blank (whitespace-only) but
`validate` does not fail with EmptyField on name: the name passes zod's
`nonempty` check, whose only rejected value is the empty string, and the
transform then throws. -/
theorem whitespace_name_no_emptyField_cex :
    jsTrim ("\t" : String).data = [] ∧ ("\t" : String) ≠ "" ∧
      validate ⟨"\t", "john@example.com", "secret1", [⟨"Go"⟩]⟩ = .crash := by
  decide

/-- C5 (amended): `validate` fails with EmptyField on the name field exactly
when the name is the empty string; whitespace-only names pass the emptiness
check (and the normalization then throws). -/
theorem name_emptyField_iff_empty (input : RawInput) :
    (∃ e, validate input = .errs e ∧ e.name = some .emptyField) ↔
      input.name = "" := by
  constructor
  · rintro ⟨e, he, hname⟩
    obtain ⟨_, _, rfl⟩ := (validate_errs_iff input e).mp he
    by_contra hne
    simp only [fieldErrors] at hname
    rw [(nameError_none_iff _).mpr hne] at hname
    cases hname
  · intro h0
    have hd : input.name.data = [] := (string_empty_iff _).mp h0
    have hnm : nameError input.name = some .emptyField := by
      simp [nameError, hd]
    have hcr : crashes input = false := by
      simp [crashes, hd]
    have hcl : (fieldErrors input).clean = false := by
      simp [FieldErrors.clean, fieldErrors, hnm]
    exact ⟨fieldErrors input, (validate_errs_iff input _).mpr ⟨hcr, hcl, rfl⟩, hnm⟩

/-- C5 (witness): the empty name is reported as EmptyField. -/
theorem name_emptyField_witness :
    ∃ e, validate ⟨"", "john@example.com", "secret1", [⟨"Go"⟩]⟩ = .errs e ∧
      e.name = some .emptyField :=
  (name_emptyField_iff_empty ⟨"", "john@example.com", "secret1", [⟨"Go"⟩]⟩).mpr rfl

/-- C6 (counterexample): the whitespace-only password "   " is blank, yet
`validate` reports TooShort on it, not EmptyField: zod's `nonempty` check
only rejects the empty string. -/
theorem password_blank_tooShort_cex :
    jsTrim ("   " : String).data = [] ∧
      validate ⟨"john doe", "john@example.com", "   ", [⟨"Go"⟩]⟩ =
        .errs ⟨none, none, some .tooShort, none, []⟩ := by
  decide

/-- C6 (amended): the password rule's first error is EmptyField exactly on
the empty password, TooShort exactly on a non-empty password of fewer than 6
characters; passwords of 6 or more characters pass the rule, and whenever
`validate` returns field errors the reported password error is this first
error. -/
theorem password_rule_spec (input : RawInput) :
    (passwordError input.password = some .emptyField ↔ input.password = "") ∧
    (passwordError input.password = some .tooShort ↔
      input.password ≠ "" ∧ input.password.data.length < 6) ∧
    (passwordError input.password = none ↔ 6 ≤ input.password.data.length) ∧
    (∀ e, validate input = .errs e → e.password = passwordError input.password) := by
  refine ⟨?_, ?_, passwordError_none_iff _, ?_⟩
  · constructor
    · intro hp
      unfold passwordError at hp
      by_cases h : input.password.data.isEmpty = true
      · exact (string_empty_iff _).mpr (List.isEmpty_iff.mp h)
      · rw [if_neg h] at hp
        split at hp <;> simp_all
    · intro hp
      have hd : input.password.data = [] := (string_empty_iff _).mp hp
      simp [passwordError, hd]
  · constructor
    · intro hp
      unfold passwordError at hp
      by_cases h : input.password.data.isEmpty = true
      · rw [if_pos h] at hp
        simp at hp
      · rw [if_neg h] at hp
        by_cases h6 : input.password.data.length < 6
        · refine ⟨?_, h6⟩
          intro h0
          rw [List.isEmpty_iff] at h
          exact h ((string_empty_iff _).mp h0)
        · rw [if_neg h6] at hp
          cases hp
    · rintro ⟨hne, h6⟩
      have hd : input.password.data ≠ [] := fun hh => hne ((string_empty_iff _).mpr hh)
      unfold passwordError
      rw [if_neg (by simpa [List.isEmpty_iff] using hd), if_pos h6]
  · intro e he
    obtain ⟨_, _, rfl⟩ := (validate_errs_iff input e).mp he
    rfl

/-- C6 (witness): the spec's "abc" example is reported TooShort. -/
theorem password_rule_witness :
    passwordError "abc" = some .tooShort ∧
      validate ⟨"john doe", "john@example.com", "abc", [⟨"Go"⟩]⟩ =
        .errs ⟨none, none, some .tooShort, none, []⟩ := by
  have h := password_rule_spec ⟨"john doe", "john@example.com", "abc", [⟨"Go"⟩]⟩
  exact ⟨(h.2.1).mpr (by decide), by decide⟩

/-- C7 (counterexample): the title " " at index 0 is blank (whitespace-only),
yet `validate` reports no per-entry EmptyField error: it succeeds, because
the `nonempty` check on titles only rejects the empty string. -/
theorem blank_title_passes_cex :
    jsTrim (" " : String).data = [] ∧
      validate ⟨"john doe", "john@example.com", "secret1", [⟨" "⟩]⟩ =
        .ok ⟨"John Doe", "john@example.com", "secret1", [⟨" "⟩]⟩ := by
  decide

/-- C7 (amended): the techs rule fails with EmptyList exactly when the list
has fewer than 1 entry; its per-entry errors are EmptyField at exactly the
indices whose title is the empty string; a list with at least one entry and
no empty title passes the rule; and whenever `validate` returns field errors
the techs slots report exactly these errors. -/
theorem techs_rule_spec (input : RawInput) :
    (techsListError input.techs = some .emptyList ↔ input.techs.length < 1) ∧
    (∀ i k, (i, k) ∈ techTitleErrors input.techs ↔
      k = .emptyField ∧ ∃ h : i < input.techs.length,
        (input.techs.get ⟨i, h⟩).title = "") ∧
    (1 ≤ input.techs.length → (∀ e ∈ input.techs, e.title ≠ "") →
      techsListError input.techs = none ∧ techTitleErrors input.techs = []) ∧
    (∀ e, validate input = .errs e →
      e.techsList = techsListError input.techs ∧
        e.techTitle = techTitleErrors input.techs) := by
  refine ⟨?_, fun i k => mem_techTitleErrors_iff input.techs i k, ?_, ?_⟩
  · unfold techsListError
    by_cases h : input.techs.length < 1
    · rw [if_pos h]
      simp [h]
    · rw [if_neg h]
      simp [h]
  · intro h1 h2
    exact ⟨(techsListError_none_iff _).mpr h1, (techTitleErrors_eq_nil_iff _).mpr h2⟩
  · intro e he
    obtain ⟨_, _, rfl⟩ := (validate_errs_iff input e).mp he
    exact ⟨rfl, rfl⟩

/-- C7 (witness): the empty techs list is reported EmptyList. -/
theorem techs_rule_witness :
    validate ⟨"john doe", "john@example.com", "secret1", []⟩ =
      .errs ⟨none, none, none, some .emptyList, []⟩ ∧
      techsListError ([] : List TechEntry) = some .emptyList := by
  have h := techs_rule_spec ⟨"john doe", "john@example.com", "secret1", []⟩
  exact ⟨by decide, h.1.mpr (by decide)⟩


/-- C8: whenever `validate` succeeds, the normalized name and email in the
returned record are non-empty strings. -/
theorem validate_ok_nonempty_fields (input : RawInput) (r : UserRecord)
    (h : validate input = .ok r) : r.name ≠ "" ∧ r.email ≠ "" := by
  obtain ⟨hc, hclean, hr⟩ := (validate_ok_iff input r).mp h
  obtain ⟨hn, he, -, -, -⟩ := (clean_iff _).mp hclean
  have hne : input.name ≠ "" := (nameError_none_iff _).mp hn
  obtain ⟨t, ht⟩ := transformName_isSome input hc hne
  constructor
  · rw [hr]
    simp only [ht, Option.getD_some]
    unfold transformName at ht
    cases hcw : capWords (splitOnChar ' ' (jsTrim (input.name.data.map Char.toLower))) with
    | none =>
      rw [hcw] at ht
      simp at ht
    | some out =>
      rw [hcw] at ht
      simp at ht
      obtain ⟨hmap, hnil⟩ := capWords_eq_some hcw
      have hwords := splitOnChar_ne_nil ' ' (jsTrim (input.name.data.map Char.toLower))
      cases hws : splitOnChar ' ' (jsTrim (input.name.data.map Char.toLower)) with
      | nil => exact absurd hws hwords
      | cons w ws =>
        rw [hws] at hmap hnil
        subst hmap
        rw [← ht]
        intro hcontra
        rw [string_empty_iff] at hcontra
        have hw : w ≠ [] := hnil w (by simp)
        have hcap : capWordD w ≠ [] := by
          cases w with
          | nil => exact absurd rfl hw
          | cons c cs => simp [capWordD]
        exact joinSpace_cons_ne_nil hcap _ hcontra
  · rw [hr]
    have hed : input.email.data ≠ [] := ((emailError_none_iff _).mp he).1
    intro hcontra
    rw [string_empty_iff] at hcontra
    simp [jsLower] at hcontra
    exact hed hcontra

/-- C8 (witness). -/
theorem validate_ok_nonempty_fields_witness :
    ("John Doe" : String) ≠ "" ∧ ("john@example.com" : String) ≠ "" := by
  have h := validate_ok_nonempty_fields
    ⟨"john doe", "JOHN@EXAMPLE.COM", "secret1", [⟨"Go"⟩]⟩
    ⟨"John Doe", "john@example.com", "secret1", [⟨"Go"⟩]⟩ (by decide)
  exact h

/-- C9: `removeTechRow` with a negative index or an index at or beyond the
current number of entries leaves the sequence unchanged; with an in-bounds
index it removes exactly the entry at that index, keeping the prefix before
it and the suffix after it in order (so the length drops by one). -/
theorem removeTechRow_bounds (techs : List TechEntry) (i : Int) :
    ((i < 0 ∨ (techs.length : Int) ≤ i) → removeTechRow techs i = techs) ∧
      (0 ≤ i → i < (techs.length : Int) →
        removeTechRow techs i = techs.take i.toNat ++ techs.drop (i.toNat + 1) ∧
          (removeTechRow techs i).length + 1 = techs.length) := by
  constructor
  · intro h
    unfold removeTechRow
    rw [if_neg]
    rintro ⟨h1, h2⟩
    rcases h with h | h
    · omega
    · omega
  · intro h1 h2
    have heq : removeTechRow techs i = techs.take i.toNat ++ techs.drop (i.toNat + 1) := by
      unfold removeTechRow
      rw [if_pos ⟨h1, h2⟩]
    refine ⟨heq, ?_⟩
    rw [heq, List.length_append, List.length_take, List.length_drop]
    omega

/-- C9 (witness): one in-bounds removal, one past-the-end index, one
negative index. -/
theorem removeTechRow_bounds_witness :
    removeTechRow [⟨"a"⟩, ⟨"b"⟩, ⟨"c"⟩] 1 = [⟨"a"⟩, ⟨"c"⟩] ∧
      removeTechRow [⟨"a"⟩, ⟨"b"⟩, ⟨"c"⟩] 3 = [⟨"a"⟩, ⟨"b"⟩, ⟨"c"⟩] ∧
      removeTechRow [⟨"a"⟩, ⟨"b"⟩, ⟨"c"⟩] (-1) = [⟨"a"⟩, ⟨"b"⟩, ⟨"c"⟩] := by
  refine ⟨?_, ?_, ?_⟩
  · rw [((removeTechRow_bounds [⟨"a"⟩, ⟨"b"⟩, ⟨"c"⟩] 1).2 (by decide) (by decide)).1]
    decide
  · exact (removeTechRow_bounds [⟨"a"⟩, ⟨"b"⟩, ⟨"c"⟩] 3).1 (Or.inr (by decide))
  · exact (removeTechRow_bounds [⟨"a"⟩, ⟨"b"⟩, ⟨"c"⟩] (-1)).1 (Or.inl (by decide))

/-- C10 (counterexample): appending a fresh row to this form state does not
produce an EmptyField error on the new title: the name "x  y" makes the name
transform throw before any field error is reported. -/
theorem addTechRow_crash_cex :
    validate (addTechRow ⟨"x  y", "john@example.com", "secret1", []⟩) = .crash := by
  decide

/-- C10 (amended): `addTechRow` appends exactly one entry with empty title
at the end, leaving name, email, password and the existing entries (and
their order) unchanged; provided the name transform does not throw,
validation of the new state fails with an EmptyField error on the fresh
row's title. -/
theorem addTechRow_frame_and_error (s : RawInput) :
    (addTechRow s).name = s.name ∧ (addTechRow s).email = s.email ∧
      (addTechRow s).password = s.password ∧
      (addTechRow s).techs = s.techs ++ [{ title := "" }] ∧
      (crashes s = false →
        ∃ e, validate (addTechRow s) = .errs e ∧
          (s.techs.length, ErrKind.emptyField) ∈ e.techTitle) := by
  refine ⟨rfl, rfl, rfl, rfl, ?_⟩
  intro hc
  have hc2 : crashes (addTechRow s) = false := hc
  have hbound : s.techs.length < (addTechRow s).techs.length := by
    show s.techs.length < (s.techs ++ [TechEntry.mk ""]).length
    rw [List.length_append]
    simp
  have hmem : (s.techs.length, ErrKind.emptyField) ∈ techTitleErrors (addTechRow s).techs := by
    rw [mem_techTitleErrors_iff]
    refine ⟨rfl, hbound, ?_⟩
    show ((s.techs ++ [TechEntry.mk ""]).get ⟨s.techs.length, hbound⟩).title = ""
    rw [List.get_eq_getElem,
      List.getElem_concat_length s.techs (TechEntry.mk "") s.techs.length rfl hbound]
  have htne : techTitleErrors (addTechRow s).techs ≠ [] := by
    intro h0
    rw [h0] at hmem
    cases hmem
  have hclean : (fieldErrors (addTechRow s)).clean = false := by
    simp [FieldErrors.clean, fieldErrors, List.isEmpty_iff, htne]
  exact ⟨fieldErrors (addTechRow s),
    (validate_errs_iff _ _).mpr ⟨hc2, hclean, rfl⟩, hmem⟩

/-- C10 (witness). -/
theorem addTechRow_frame_witness :
    (addTechRow ⟨"john doe", "john@example.com", "secret1", [⟨"Go"⟩]⟩).techs =
        [⟨"Go"⟩, ⟨""⟩] ∧
      ∃ e, validate (addTechRow ⟨"john doe", "john@example.com", "secret1", [⟨"Go"⟩]⟩) =
        .errs e ∧ (1, ErrKind.emptyField) ∈ e.techTitle := by
  have h := addTechRow_frame_and_error ⟨"john doe", "john@example.com", "secret1", [⟨"Go"⟩]⟩
  exact ⟨h.2.2.2.1, h.2.2.2.2 (by decide)⟩

end FormApp
